import Mathlib

set_option maxRecDepth 40000

/-!
Verification of `scripts/fix-ts-errors.py`.

The script applies two regular-expression substitutions (`re.sub` with
empty replacement) to file contents, runs two observation-only detector
passes, and rewrites each file of a hardcoded list when the content
changed.  Text is modelled as `List Char`; the two concrete regexes are
compiled by hand into deterministic matchers (their quantifiers are
`\s+`/`\s*` followed by literals starting with a non-space character, or
the final `\s*\n`, so greedy backtracking determinises: each whitespace
run is consumed maximally, and `\s*\n` consumes up to the last newline
of the maximal whitespace run).  `re.sub` replaces the non-overlapping
leftmost matches of the original string left to right, resuming the scan
after each match; it never rescans the already-produced output.
-/

namespace FixTs

/-- Python `\s` restricted to the ASCII whitespace characters
`[ \t\n\r\f\v]` (the inputs are source files; the Unicode extension of
`\s` is irrelevant to every claim below). -/
def isSpace (c : Char) : Bool :=
  c = ' ' || c = '\t' || c = '\n' || c = '\r' || c = '\x0b' || c = '\x0c'

/-- Strip the literal `lit` from the front of `l`, returning the rest. -/
def stripL : List Char → List Char → Option (List Char)
  | [], l => some l
  | _ :: _, [] => none
  | a :: s, b :: l => if a = b then stripL s l else none

/-- Drop the maximal leading whitespace run (greedy `\s*` before a
literal that starts with a non-space character). -/
def skipWs : List Char → List Char
  | [] => []
  | c :: cs => if isSpace c then skipWs cs else c :: cs

/-- Greedy `\s*` followed by the literal `lit` (whose head is not a
space): drop the maximal whitespace run, then strip `lit`. -/
def stripWsLit (lit l : List Char) : Option (List Char) :=
  stripL lit (skipWs l)

/-- Greedy `\s*\n`: succeed iff the maximal leading whitespace run
contains a newline, consuming through the last newline of that run. -/
def matchWsNl : List Char → Option (List Char)
  | [] => none
  | c :: cs =>
    if isSpace c then
      match matchWsNl cs with
      | some r => some r
      | none => if c = '\n' then some cs else none
    else none

def litSchoolIdColon : List Char := "schoolId:".data
def litContext : List Char := "context.schoolId,".data
def litSlashes : List Char := "//".data
def litCritical : List Char := "CRITICAL:".data
def litFilter : List Char := "Filter by school".data
def litSchoolIdComma : List Char := "schoolId,".data

/-- Match of pattern 1,
`(\s+)schoolId:\s*context\.schoolId,\s*//\s*CRITICAL:\s*Filter by school\s*\n`,
anchored at the head of `l`; returns the text after the match. The
leading `\s+` is one whitespace character followed by the maximal
whitespace run that `stripWsLit` consumes. -/
def matchP1At (l : List Char) : Option (List Char) :=
  match l with
  | [] => none
  | c :: cs =>
    if isSpace c then
      (stripWsLit litSchoolIdColon cs).bind fun r1 =>
      (stripWsLit litContext r1).bind fun r2 =>
      (stripWsLit litSlashes r2).bind fun r3 =>
      (stripWsLit litCritical r3).bind fun r4 =>
      (stripWsLit litFilter r4).bind fun r5 =>
      matchWsNl r5
    else none

/-- Match of pattern 2,
`(\s+)schoolId,\s*//\s*CRITICAL:\s*Filter by school\s*\n`,
anchored at the head of `l`. -/
def matchP2At (l : List Char) : Option (List Char) :=
  match l with
  | [] => none
  | c :: cs =>
    if isSpace c then
      (stripWsLit litSchoolIdComma cs).bind fun r2 =>
      (stripWsLit litSlashes r2).bind fun r3 =>
      (stripWsLit litCritical r3).bind fun r4 =>
      (stripWsLit litFilter r4).bind fun r5 =>
      matchWsNl r5
    else none

/-- One `re.sub(pattern, r-empty, text)` pass driven by an anchored
matcher `m`: scan left to right, delete each leftmost match, resume
after it.  `fuel` bounds the recursion; `subBy` supplies `l.length`,
which suffices because a match is never empty. -/
def subFuel (m : List Char → Option (List Char)) : Nat → List Char → List Char
  | 0, l => l
  | _ + 1, [] => []
  | fuel + 1, c :: cs =>
    match m (c :: cs) with
    | some rest => subFuel m fuel rest
    | none => c :: subFuel m fuel cs

/-- `re.sub(m, r-empty, l)`. -/
def subBy (m : List Char → Option (List Char)) (l : List Char) : List Char :=
  subFuel m l.length l

/-- Does any suffix of `l` match `m` at its head (i.e. does `re.search`
find a match)? -/
def hasMatchBy (m : List Char → Option (List Char)) : List Char → Bool
  | [] => (m []).isSome
  | c :: cs => (m (c :: cs)).isSome || hasMatchBy m cs

/-- `fix_user_where_clause`: pattern 1 substitution, then pattern 2
substitution. -/
def fix_user_where_clause (content : List Char) : List Char :=
  subBy matchP2At (subBy matchP1At content)

/-- Python's substring test `needle in hay`. -/
def hasSub (needle : List Char) : List Char → Bool
  | [] => decide (needle = [])
  | c :: cs => (stripL needle (c :: cs)).isSome || hasSub needle cs

def litUserTeacher : List Char := "user.teacher".data
def litInclude : List Char := "include:".data
def litUserSchools0 : List Char := "user.userSchools[0]".data
def litUserSchoolsColon : List Char := "userSchools:".data

/-- `fix_teacher_references`: returns the content unchanged, paired with
whether the manual-review warning is printed. -/
def fix_teacher_references (content : List Char) : List Char × Bool :=
  (content, hasSub litUserTeacher content && !hasSub litInclude content)

/-- `fix_user_schools_references`: returns the content unchanged, paired
with whether the manual-review warning is printed. -/
def fix_user_schools_references (content : List Char) : List Char × Bool :=
  (content, hasSub litUserSchools0 content && !hasSub litUserSchoolsColon content)

/-- The three content passes of `fix_file`, in source order. -/
def applyPasses (content : List Char) : List Char :=
  (fix_user_schools_references
    (fix_teacher_references (fix_user_where_clause content)).1).1

/-! File-system model for `fix_file` and `main`.  Reading a path either
yields its content, raises `FileNotFoundError`, or raises some other
exception; those are the two `except` arms of `fix_file`. -/

/-- Result of opening and reading one path. -/
inductive ReadResult where
  | ok (content : List Char)
  | absent
  | err
deriving DecidableEq

/-- A file system: every path resolves to a read outcome. -/
def FS : Type := String → ReadResult

/-- The two exception kinds `fix_file` catches. -/
inductive PyErr where
  | fileNotFound
  | other
deriving DecidableEq

/-- Overwrite one path's content. -/
def fsWrite (fs : FS) (p : String) (c : List Char) : FS :=
  fun q => if q = p then .ok c else fs q

/-- The `try` body of `fix_file`: read, apply the three passes, compare
with the original, write back iff changed.  A read outcome of `absent`
raises `FileNotFoundError`; `err` raises some other exception. -/
def fix_file_body (fs : FS) (p : String) : Except PyErr (Bool × FS) :=
  match fs p with
  | .absent => .error .fileNotFound
  | .err => .error .other
  | .ok content =>
    let fixed := applyPasses content
    if fixed ≠ content then .ok (true, fsWrite fs p fixed)
    else .ok (false, fs)

/-- `fix_file`: the `try` body with both `except` arms, each returning
`false` and leaving the file system unchanged. -/
def fix_file (fs : FS) (p : String) : Bool × FS :=
  match fix_file_body fs p with
  | .error _ => (false, fs)
  | .ok r => r

/-- The hardcoded `files_to_fix` list. -/
def files_to_fix : List String :=
  [ "src/app/api/calendar/events/route.ts",
    "src/app/api/calendar/export/route.ts",
    "src/app/api/calendar/preferences/route.ts",
    "src/app/api/payments/create/route.ts",
    "src/app/api/payments/verify/route.ts",
    "src/app/api/reports/batch-download/route.ts",
    "src/app/api/teacher/achievements/[id]/route.ts",
    "src/app/api/teacher/achievements/route.ts",
    "src/app/api/teacher/documents/route.ts",
    "src/app/api/teacher/events/[id]/rsvp/route.ts",
    "src/app/api/teacher/events/route.ts",
    "src/app/api/students/[id]/route.ts" ]

/-- The loop of `main`: call `fix_file` on each path in order,
accumulating `fixed_count`. -/
def mainLoop : FS → List String → Nat × FS
  | fs, [] => (0, fs)
  | fs, p :: ps =>
    let r := fix_file fs p
    let rest := mainLoop r.2 ps
    (if r.1 then rest.1 + 1 else rest.1, rest.2)

/-- `main`: run the loop over `files_to_fix`; the `Nat` is the count the
final summary line prints. -/
def main (fs : FS) : Nat × FS :=
  mainLoop fs files_to_fix

/-- Trace of a run: the per-file boolean results, in list order, with
the file system threaded through exactly as in `mainLoop`. -/
def runAll : FS → List String → List Bool × FS
  | fs, [] => ([], fs)
  | fs, p :: ps =>
    let r := fix_file fs p
    let rest := runAll r.2 ps
    (r.1 :: rest.1, rest.2)

/-- The maximal leading whitespace run of `l` contains no newline (so
greedy `\s*\n` cannot start successfully at `l`). -/
def noNlRun : List Char → Bool
  | [] => true
  | c :: cs => !isSpace c || (!(c = '\n') && noNlRun cs)

/-- The canonical pattern-1 clause with single interior spaces. -/
def coreP1 : List Char :=
  "schoolId: context.schoolId, // CRITICAL: Filter by school".data

/-- The canonical pattern-2 clause with single interior spaces. -/
def coreP2 : List Char :=
  "schoolId, // CRITICAL: Filter by school".data

/-- A decomposition of a text into the segments a `re.sub` scan driven
by the anchored matcher `m` deletes and the separators it keeps: either
the whole text has no match, or it is a separator `p` with no match
starting inside it, followed by a leftmost match `seg` (consuming
through `rest`), followed by a decomposed remainder.  `SubSplit m t out`
says the scan of `t` deletes exactly the `seg` segments, leaving
`out`. -/
inductive SubSplit (m : List Char → Option (List Char)) :
    List Char → List Char → Prop where
  | last (t : List Char) (h : hasMatchBy m t = false) : SubSplit m t t
  | step (p seg rest out : List Char)
      (hsep : ∀ i, i < p.length → m (List.drop i (p ++ (seg ++ rest))) = none)
      (hseg : m (seg ++ rest) = some rest)
      (hrest : SubSplit m rest out) :
      SubSplit m (p ++ (seg ++ rest)) (p ++ out)

/-- Example input: a matching line between two unrelated lines. -/
def exLineJoin : List Char :=
  ("a\n  schoolId: context.schoolId, // CRITICAL: Filter by school\nb\n").data

/-- Example input whose pattern-1 match, once deleted, joins the
surrounding text into a fresh pattern-1 match. -/
def exNonIdem : List Char :=
  ("\n schoolId: context.schoolId, // CRITICAL: Filter by scho\n  schoolId: context.schoolId, // CRITICAL: Filter by school\nol\n").data

/-- Example input with an arbitrary expression after `schoolId:`. -/
def exFoo : List Char :=
  ("x\n  schoolId: foo, // CRITICAL: Filter by school\n").data

/-! Basic facts about the matcher pieces. -/

theorem stripL_length {s l r : List Char} (h : stripL s l = some r) :
    r.length + s.length = l.length := by
  induction s generalizing l with
  | nil => simp [stripL] at h; simp [h]
  | cons a s ih =>
    match l with
    | [] => simp [stripL] at h
    | b :: l =>
      rw [stripL] at h
      split at h
      · have := ih h; simp [List.length_cons]; omega
      · exact absurd h (by simp)

theorem stripL_sublist {s l r : List Char} (h : stripL s l = some r) :
    r.Sublist l := by
  induction s generalizing l with
  | nil => simp [stripL] at h; simp [h]
  | cons a s ih =>
    match l with
    | [] => simp [stripL] at h
    | b :: l =>
      rw [stripL] at h
      split at h
      · exact (ih h).cons b
      · exact absurd h (by simp)

theorem stripL_self (s r : List Char) : stripL s (s ++ r) = some r := by
  induction s with
  | nil => rfl
  | cons a s ih => simp [stripL, ih]

theorem skipWs_length (l : List Char) : (skipWs l).length ≤ l.length := by
  induction l with
  | nil => simp [skipWs]
  | cons c cs ih =>
    rw [skipWs]
    split
    · exact Nat.le_succ_of_le ih
    · exact Nat.le_refl _

theorem skipWs_sublist (l : List Char) : (skipWs l).Sublist l := by
  induction l with
  | nil => simp [skipWs]
  | cons c cs ih =>
    rw [skipWs]
    split
    · exact ih.cons c
    · exact List.Sublist.refl _

theorem skipWs_append {w : List Char} (hw : ∀ c ∈ w, isSpace c = true)
    (l : List Char) : skipWs (w ++ l) = skipWs l := by
  induction w with
  | nil => rfl
  | cons c ws ih =>
    have hc : isSpace c = true := hw c (by simp)
    rw [List.cons_append, skipWs, if_pos hc]
    exact ih fun d hd => hw d (by simp [hd])

theorem skipWs_not {c : Char} (hc : isSpace c = false) (l : List Char) :
    skipWs (c :: l) = c :: l := by
  rw [skipWs, hc]; simp

theorem stripWsLit_le {s l r : List Char} (h : stripWsLit s l = some r) :
    r.length ≤ l.length := by
  rw [stripWsLit] at h
  have h1 := stripL_length h
  have h2 := skipWs_length l
  omega

theorem stripWsLit_sublist {s l r : List Char} (h : stripWsLit s l = some r) :
    r.Sublist l := by
  rw [stripWsLit] at h
  exact (stripL_sublist h).trans (skipWs_sublist l)

theorem stripWsLit_exact {w lit r : List Char}
    (hw : ∀ c ∈ w, isSpace c = true) (hne : lit ≠ [])
    (hhead : isSpace lit.headI = false) :
    stripWsLit lit (w ++ (lit ++ r)) = some r := by
  match lit, hne with
  | a :: s, _ =>
    rw [stripWsLit, skipWs_append hw]
    rw [List.cons_append, skipWs_not (by simpa using hhead)]
    exact stripL_self (a :: s) r

theorem matchWsNl_length {l r : List Char} (h : matchWsNl l = some r) :
    r.length < l.length := by
  induction l with
  | nil => simp [matchWsNl] at h
  | cons c cs ih =>
    rw [matchWsNl] at h
    split at h
    · match hm : matchWsNl cs with
      | some r' =>
        rw [hm] at h
        cases h
        exact Nat.lt_succ_of_lt (ih hm)
      | none =>
        rw [hm] at h
        by_cases hc : c = '\n'
        · rw [if_pos hc] at h
          injection h with h2
          subst h2
          exact Nat.lt_succ_self _
        · rw [if_neg hc] at h
          exact absurd h (by simp)
    · exact absurd h (by simp)

theorem matchWsNl_sublist {l r : List Char} (h : matchWsNl l = some r) :
    r.Sublist l := by
  induction l with
  | nil => simp [matchWsNl] at h
  | cons c cs ih =>
    rw [matchWsNl] at h
    split at h
    · match hm : matchWsNl cs with
      | some r' =>
        rw [hm] at h
        cases h
        exact (ih hm).cons c
      | none =>
        rw [hm] at h
        by_cases hc : c = '\n'
        · rw [if_pos hc] at h
          injection h with h2
          subst h2
          exact List.sublist_cons_self c cs
        · rw [if_neg hc] at h
          exact absurd h (by simp)
    · exact absurd h (by simp)

theorem matchWsNl_none {l : List Char} (h : noNlRun l = true) :
    matchWsNl l = none := by
  induction l with
  | nil => rfl
  | cons c cs ih =>
    rw [noNlRun] at h
    rw [matchWsNl]
    rcases Bool.or_eq_true_iff.mp h with h1 | h2
    · simp [Bool.not_eq_true'] at h1
      rw [h1]; simp
    · obtain ⟨hnl, hrun⟩ := Bool.and_eq_true_iff.mp h2
      split
      · rw [ih hrun]
        simp only []
        rw [if_neg (by simpa using hnl)]
      · rfl

theorem matchWsNl_nl {r : List Char} (h : noNlRun r = true) :
    matchWsNl ('\n' :: r) = some r := by
  rw [matchWsNl, if_pos (by decide), matchWsNl_none h]
  simp

theorem matchP1At_lt {l r : List Char} (h : matchP1At l = some r) :
    r.length < l.length := by
  match l with
  | [] => simp [matchP1At] at h
  | c :: cs =>
    rw [matchP1At] at h
    split at h
    · obtain ⟨r1, h1, h⟩ := Option.bind_eq_some.mp h
      obtain ⟨r2, h2, h⟩ := Option.bind_eq_some.mp h
      obtain ⟨r3, h3, h⟩ := Option.bind_eq_some.mp h
      obtain ⟨r4, h4, h⟩ := Option.bind_eq_some.mp h
      obtain ⟨r5, h5, h⟩ := Option.bind_eq_some.mp h
      have := matchWsNl_length h
      have := stripWsLit_le h1
      have := stripWsLit_le h2
      have := stripWsLit_le h3
      have := stripWsLit_le h4
      have := stripWsLit_le h5
      simp only [List.length_cons]
      omega
    · exact absurd h (by simp)

theorem matchP1At_sublist {l r : List Char} (h : matchP1At l = some r) :
    r.Sublist l := by
  match l with
  | [] => simp [matchP1At] at h
  | c :: cs =>
    rw [matchP1At] at h
    split at h
    · obtain ⟨r1, h1, h⟩ := Option.bind_eq_some.mp h
      obtain ⟨r2, h2, h⟩ := Option.bind_eq_some.mp h
      obtain ⟨r3, h3, h⟩ := Option.bind_eq_some.mp h
      obtain ⟨r4, h4, h⟩ := Option.bind_eq_some.mp h
      obtain ⟨r5, h5, h⟩ := Option.bind_eq_some.mp h
      exact ((((((matchWsNl_sublist h).trans
        (stripWsLit_sublist h5)).trans
        (stripWsLit_sublist h4)).trans
        (stripWsLit_sublist h3)).trans
        (stripWsLit_sublist h2)).trans
        (stripWsLit_sublist h1)).cons c
    · exact absurd h (by simp)

theorem matchP2At_lt {l r : List Char} (h : matchP2At l = some r) :
    r.length < l.length := by
  match l with
  | [] => simp [matchP2At] at h
  | c :: cs =>
    rw [matchP2At] at h
    split at h
    · obtain ⟨r2, h2, h⟩ := Option.bind_eq_some.mp h
      obtain ⟨r3, h3, h⟩ := Option.bind_eq_some.mp h
      obtain ⟨r4, h4, h⟩ := Option.bind_eq_some.mp h
      obtain ⟨r5, h5, h⟩ := Option.bind_eq_some.mp h
      have := matchWsNl_length h
      have := stripWsLit_le h2
      have := stripWsLit_le h3
      have := stripWsLit_le h4
      have := stripWsLit_le h5
      simp only [List.length_cons]
      omega
    · exact absurd h (by simp)

theorem matchP2At_sublist {l r : List Char} (h : matchP2At l = some r) :
    r.Sublist l := by
  match l with
  | [] => simp [matchP2At] at h
  | c :: cs =>
    rw [matchP2At] at h
    split at h
    · obtain ⟨r2, h2, h⟩ := Option.bind_eq_some.mp h
      obtain ⟨r3, h3, h⟩ := Option.bind_eq_some.mp h
      obtain ⟨r4, h4, h⟩ := Option.bind_eq_some.mp h
      obtain ⟨r5, h5, h⟩ := Option.bind_eq_some.mp h
      exact (((((matchWsNl_sublist h).trans
        (stripWsLit_sublist h5)).trans
        (stripWsLit_sublist h4)).trans
        (stripWsLit_sublist h3)).trans
        (stripWsLit_sublist h2)).cons c
    · exact absurd h (by simp)

theorem stripWsLit_exact1 {a : Char} (ha : isSpace a = true) {lit r : List Char}
    (hne : lit ≠ []) (hhead : isSpace lit.headI = false) :
    stripWsLit lit (a :: (lit ++ r)) = some r := by
  have := stripWsLit_exact (w := [a]) (by simpa using ha) hne hhead (r := r)
  simpa using this

theorem coreP1_eq :
    coreP1 = litSchoolIdColon ++ (' ' :: (litContext ++ (' ' :: (litSlashes ++
      (' ' :: (litCritical ++ (' ' :: litFilter))))))) := by decide

theorem coreP2_eq :
    coreP2 = litSchoolIdComma ++ (' ' :: (litSlashes ++
      (' ' :: (litCritical ++ (' ' :: litFilter))))) := by decide

/-- Pattern 1 fires on a whitespace character, optional further
indentation, the canonical clause and its terminating newline, and
consumes exactly that, provided the leading whitespace run of the
remainder has no newline. -/
theorem matchP1At_shape {c : Char} (hc : isSpace c = true) {ind s : List Char}
    (hind : ∀ d ∈ ind, isSpace d = true) (hs : noNlRun s = true) :
    matchP1At (c :: (ind ++ (coreP1 ++ ('\n' :: s)))) = some s := by
  rw [matchP1At, if_pos hc, coreP1_eq]
  simp only [List.append_assoc, List.cons_append]
  rw [stripWsLit_exact hind (by decide) (by decide)]
  simp only [Option.some_bind]
  rw [stripWsLit_exact1 (by decide) (by decide) (by decide)]
  simp only [Option.some_bind]
  rw [stripWsLit_exact1 (by decide) (by decide) (by decide)]
  simp only [Option.some_bind]
  rw [stripWsLit_exact1 (by decide) (by decide) (by decide)]
  simp only [Option.some_bind]
  rw [stripWsLit_exact1 (by decide) (by decide) (by decide)]
  simp only [Option.some_bind]
  exact matchWsNl_nl hs

/-- Pattern 2 analogue of `matchP1At_shape`. -/
theorem matchP2At_shape {c : Char} (hc : isSpace c = true) {ind s : List Char}
    (hind : ∀ d ∈ ind, isSpace d = true) (hs : noNlRun s = true) :
    matchP2At (c :: (ind ++ (coreP2 ++ ('\n' :: s)))) = some s := by
  rw [matchP2At, if_pos hc, coreP2_eq]
  simp only [List.append_assoc, List.cons_append]
  rw [stripWsLit_exact hind (by decide) (by decide)]
  simp only [Option.some_bind]
  rw [stripWsLit_exact1 (by decide) (by decide) (by decide)]
  simp only [Option.some_bind]
  rw [stripWsLit_exact1 (by decide) (by decide) (by decide)]
  simp only [Option.some_bind]
  rw [stripWsLit_exact1 (by decide) (by decide) (by decide)]
  simp only [Option.some_bind]
  exact matchWsNl_nl hs

/-! Facts about the `re.sub` scan. -/

theorem subFuel_nil (m : List Char → Option (List Char)) (f : Nat) :
    subFuel m f [] = [] := by
  cases f <;> rfl

theorem subFuel_congr {m : List Char → Option (List Char)}
    (hm : ∀ l r, m l = some r → r.length < l.length) :
    ∀ f g l, l.length ≤ f → l.length ≤ g → subFuel m f l = subFuel m g l := by
  intro f
  induction f with
  | zero =>
    intro g l hf _
    have : l = [] := List.eq_nil_of_length_eq_zero (Nat.le_zero.mp hf)
    subst this
    rw [subFuel_nil, subFuel_nil]
  | succ f ih =>
    intro g l hf hg
    match l with
    | [] => rw [subFuel_nil, subFuel_nil]
    | c :: cs =>
      match g, hg with
      | g + 1, hg =>
        rw [subFuel, subFuel]
        match hmc : m (c :: cs) with
        | some rest =>
          simp only [hmc]
          have hlt := hm _ _ hmc
          simp only [List.length_cons] at hf hg hlt
          exact ih g rest (by omega) (by omega)
        | none =>
          simp only [hmc]
          simp only [List.length_cons] at hf hg
          rw [ih g cs (by omega) (by omega)]

theorem subBy_cons_none {m : List Char → Option (List Char)} {c : Char}
    {cs : List Char} (h : m (c :: cs) = none) :
    subBy m (c :: cs) = c :: subBy m cs := by
  show subFuel m (cs.length + 1) (c :: cs) = c :: subBy m cs
  rw [subFuel]
  simp only [h]
  rfl

theorem subBy_match {m : List Char → Option (List Char)}
    (hm : ∀ l r, m l = some r → r.length < l.length)
    {l r : List Char} (h : m l = some r) : subBy m l = subBy m r := by
  match l with
  | [] => exact absurd (hm _ _ h) (by simp)
  | c :: cs =>
    show subFuel m (cs.length + 1) (c :: cs) = subBy m r
    rw [subFuel]
    simp only [h]
    have hlt := hm _ _ h
    simp only [List.length_cons] at hlt
    exact subFuel_congr hm cs.length r.length r (by omega) (Nat.le_refl _)

theorem subFuel_no_match {m : List Char → Option (List Char)} :
    ∀ {l : List Char}, hasMatchBy m l = false → ∀ f, subFuel m f l = l := by
  intro l
  induction l with
  | nil => intro _ f; exact subFuel_nil m f
  | cons c cs ih =>
    intro h f
    rw [hasMatchBy, Bool.or_eq_false_iff] at h
    have hnone : m (c :: cs) = none := Option.not_isSome_iff_eq_none.mp (by simp [h.1])
    match f with
    | 0 => rfl
    | f + 1 =>
      rw [subFuel]
      simp only [hnone]
      rw [ih h.2 f]

theorem subBy_no_match {m : List Char → Option (List Char)} {l : List Char}
    (h : hasMatchBy m l = false) : subBy m l = l :=
  subFuel_no_match h _

theorem subBy_append {m : List Char → Option (List Char)} {p rest : List Char}
    (h : ∀ i, i < p.length → m (List.drop i (p ++ rest)) = none) :
    subBy m (p ++ rest) = p ++ subBy m rest := by
  induction p with
  | nil => simp
  | cons a p ih =>
    have h0 : m (a :: (p ++ rest)) = none := by
      have := h 0 (by simp)
      simpa using this
    rw [List.cons_append, subBy_cons_none h0, ih, List.cons_append]
    intro i hi
    have := h (i + 1) (by simp only [List.length_cons]; omega)
    simpa using this

theorem subFuel_sublist {m : List Char → Option (List Char)}
    (hms : ∀ l r, m l = some r → r.Sublist l) :
    ∀ f l, (subFuel m f l).Sublist l := by
  intro f
  induction f with
  | zero => intro l; exact List.Sublist.refl _
  | succ f ih =>
    intro l
    match l with
    | [] => rw [subFuel_nil]
    | c :: cs =>
      rw [subFuel]
      match hmc : m (c :: cs) with
      | some rest =>
        simp only [hmc]
        exact (ih rest).trans (hms _ _ hmc)
      | none =>
        simp only [hmc]
        exact (ih cs).cons₂ c

theorem subBy_sublist {m : List Char → Option (List Char)}
    (hms : ∀ l r, m l = some r → r.Sublist l) (l : List Char) :
    (subBy m l).Sublist l :=
  subFuel_sublist hms _ l

/-! The substitution pass itself. -/

theorem fix_uwc_sublist (t : List Char) :
    (fix_user_where_clause t).Sublist t :=
  (subBy_sublist (fun _ _ h => matchP2At_sublist h) _).trans
    (subBy_sublist (fun _ _ h => matchP1At_sublist h) t)

theorem fix_uwc_no_match {t : List Char}
    (h1 : hasMatchBy matchP1At t = false)
    (h2 : hasMatchBy matchP2At t = false) :
    fix_user_where_clause t = t := by
  show subBy matchP2At (subBy matchP1At t) = t
  rw [subBy_no_match h1]
  exact subBy_no_match h2

theorem applyPasses_eq_fix (t : List Char) :
    applyPasses t = fix_user_where_clause t := rfl

theorem matchP1At_nonspace {c : Char} (hc : isSpace c = false)
    (l : List Char) : matchP1At (c :: l) = none := by
  rw [matchP1At, if_neg (by simp [hc])]

theorem matchP2At_nonspace {c : Char} (hc : isSpace c = false)
    (l : List Char) : matchP2At (c :: l) = none := by
  rw [matchP2At, if_neg (by simp [hc])]

/-- A `SubSplit` decomposition computes the `re.sub` result: the scan
deletes exactly the matched segments. -/
theorem subBy_of_split {m : List Char → Option (List Char)}
    (hm : ∀ l r, m l = some r → r.length < l.length)
    {t out : List Char} (h : SubSplit m t out) : subBy m t = out := by
  induction h with
  | last t h => exact subBy_no_match h
  | step p seg rest out hsep hseg hrest ih =>
    rw [subBy_append hsep, subBy_match hm hseg, ih]

/-- Greedy `\s*\n` through an arbitrary whitespace run ending at an
explicit newline, provided the remainder's leading whitespace run has
no further newline. -/
theorem matchWsNl_ws {wt s : List Char} (hwt : ∀ d ∈ wt, isSpace d = true)
    (hs : noNlRun s = true) : matchWsNl (wt ++ ('\n' :: s)) = some s := by
  induction wt with
  | nil => exact matchWsNl_nl hs
  | cons d wt ih =>
    have hd := hwt d (by simp)
    have ih2 := ih fun e he => hwt e (by simp [he])
    rw [List.cons_append, matchWsNl, if_pos hd, ih2]

/-- Pattern 1 fires on any match-shaped segment with arbitrary
whitespace at each of the regex's whitespace positions: a leading
whitespace character `c`, further leading whitespace `ind`, then the
literals separated by arbitrary whitespace runs `w1`-`w4`, trailing
whitespace `wt` and the terminating newline. -/
theorem matchP1At_shape_ws {c : Char} (hc : isSpace c = true)
    {ind w1 w2 w3 w4 wt s : List Char}
    (hind : ∀ d ∈ ind, isSpace d = true) (hw1 : ∀ d ∈ w1, isSpace d = true)
    (hw2 : ∀ d ∈ w2, isSpace d = true) (hw3 : ∀ d ∈ w3, isSpace d = true)
    (hw4 : ∀ d ∈ w4, isSpace d = true) (hwt : ∀ d ∈ wt, isSpace d = true)
    (hs : noNlRun s = true) :
    matchP1At (c :: (ind ++ (litSchoolIdColon ++ (w1 ++ (litContext ++
        (w2 ++ (litSlashes ++ (w3 ++ (litCritical ++ (w4 ++ (litFilter ++
        (wt ++ ('\n' :: s)))))))))))))
      = some s := by
  rw [matchP1At, if_pos hc]
  rw [stripWsLit_exact hind (by decide) (by decide)]
  simp only [Option.some_bind]
  rw [stripWsLit_exact hw1 (by decide) (by decide)]
  simp only [Option.some_bind]
  rw [stripWsLit_exact hw2 (by decide) (by decide)]
  simp only [Option.some_bind]
  rw [stripWsLit_exact hw3 (by decide) (by decide)]
  simp only [Option.some_bind]
  rw [stripWsLit_exact hw4 (by decide) (by decide)]
  simp only [Option.some_bind]
  exact matchWsNl_ws hwt hs

/-- Pattern 2 (bare shorthand `schoolId,`) analogue of
`matchP1At_shape_ws`. -/
theorem matchP2At_shape_ws {c : Char} (hc : isSpace c = true)
    {ind w2 w3 w4 wt s : List Char}
    (hind : ∀ d ∈ ind, isSpace d = true)
    (hw2 : ∀ d ∈ w2, isSpace d = true) (hw3 : ∀ d ∈ w3, isSpace d = true)
    (hw4 : ∀ d ∈ w4, isSpace d = true) (hwt : ∀ d ∈ wt, isSpace d = true)
    (hs : noNlRun s = true) :
    matchP2At (c :: (ind ++ (litSchoolIdComma ++ (w2 ++ (litSlashes ++
        (w3 ++ (litCritical ++ (w4 ++ (litFilter ++ (wt ++ ('\n' :: s)))))))))))
      = some s := by
  rw [matchP2At, if_pos hc]
  rw [stripWsLit_exact hind (by decide) (by decide)]
  simp only [Option.some_bind]
  rw [stripWsLit_exact hw2 (by decide) (by decide)]
  simp only [Option.some_bind]
  rw [stripWsLit_exact hw3 (by decide) (by decide)]
  simp only [Option.some_bind]
  rw [stripWsLit_exact hw4 (by decide) (by decide)]
  simp only [Option.some_bind]
  exact matchWsNl_ws hwt hs

/-! The batch loop. -/

theorem runAll_length (fs : FS) (ps : List String) :
    (runAll fs ps).1.length = ps.length := by
  induction ps generalizing fs with
  | nil => rfl
  | cons p ps ih => simp [runAll, ih]

theorem mainLoop_count (ps : List String) :
    ∀ fs : FS, (mainLoop fs ps).1 =
      ((runAll fs ps).1.filter (fun b => b)).length := by
  induction ps with
  | nil => intro fs; rfl
  | cons p ps ih =>
    intro fs
    cases hr : (fix_file fs p).1 <;>
      simp [mainLoop, runAll, hr, List.filter_cons, ih]

/-! Claims. -/

/-- C1, counterexample: on `exLineJoin` the output is not the input with
only the matched line deleted.  The regex consumes the leading
whitespace run of the match, which contains the newline terminating the
previous line, so lines `a` and `b` are joined into `ab`. -/
theorem claim1_counterexample :
    fix_user_where_clause exLineJoin = ("ab\n").data ∧
      ("ab\n").data ≠ ("a\nb\n").data := by
  constructor
  · decide
  · decide

/-- C1, amended: deleting a matched filter-clause line also deletes the
whitespace run in front of it, including the newline that terminated the
previous line.  Amended claim: when the input decomposes as `p`, then a
newline, optional indentation `ind`, the canonical clause and its
terminating newline, then `s`, where no match starts inside `p`, `s`
contains no match, and the remainder triggers no further consumption,
the output is exactly `p ++ s` (the matched segment plus the preceding
newline deleted, everything else byte-for-byte unaltered).  The first
conjunct handles `schoolId: context.schoolId,`, the second the
shorthand `schoolId,`. -/
theorem claim1_corrected (p ind s : List Char)
    (hind : ∀ d ∈ ind, isSpace d = true) (hs : noNlRun s = true) :
    ((∀ i, i < p.length →
        matchP1At (List.drop i (p ++ ('\n' :: (ind ++ (coreP1 ++ ('\n' :: s)))))) = none) →
      hasMatchBy matchP1At s = false →
      hasMatchBy matchP2At (p ++ s) = false →
      fix_user_where_clause (p ++ ('\n' :: (ind ++ (coreP1 ++ ('\n' :: s))))) = p ++ s)
    ∧ (hasMatchBy matchP1At (p ++ ('\n' :: (ind ++ (coreP2 ++ ('\n' :: s))))) = false →
      (∀ i, i < p.length →
        matchP2At (List.drop i (p ++ ('\n' :: (ind ++ (coreP2 ++ ('\n' :: s)))))) = none) →
      hasMatchBy matchP2At s = false →
      fix_user_where_clause (p ++ ('\n' :: (ind ++ (coreP2 ++ ('\n' :: s))))) = p ++ s) := by
  constructor
  · intro hp h1 h2
    show subBy matchP2At (subBy matchP1At _) = p ++ s
    rw [subBy_append hp,
      subBy_match (fun _ _ h => matchP1At_lt h) (matchP1At_shape (by decide) hind hs),
      subBy_no_match h1]
    exact subBy_no_match h2
  · intro h0 hp h2
    show subBy matchP2At (subBy matchP1At _) = p ++ s
    rw [subBy_no_match h0,
      subBy_append hp,
      subBy_match (fun _ _ h => matchP2At_lt h) (matchP2At_shape (by decide) hind hs),
      subBy_no_match h2]

/-- C1, witness: the amended deletion at a concrete input. -/
theorem claim1_witness :
    fix_user_where_clause
        (("const a = f(b);").data ++
          ('\n' :: (("  ").data ++ (coreP1 ++ ('\n' :: ("return 1;").data)))))
      = ("const a = f(b);").data ++ ("return 1;").data :=
  (claim1_corrected (("const a = f(b);").data) (("  ").data)
      (("return 1;").data) (by decide) (by decide)).1
    (by decide) (by decide) (by decide)

/-- C2, counterexample: a clause whose expression is `foo` rather than
`context.schoolId` is present in `exFoo` but is not removed: the code
matches only the literal `context.schoolId`, not an arbitrary
expression. -/
theorem claim2_counterexample :
    fix_user_where_clause exFoo = exFoo ∧
      hasSub (("schoolId: foo,").data) exFoo = true := by
  constructor
  · decide
  · decide

/-- C2, amended: the pass matches only the literal expression
`context.schoolId`, not arbitrary expressions; with that restriction the
remove-all behaviour holds in full generality.  First conjunct: over
arbitrary text, whenever the input decomposes into separators (with no
match starting inside them) alternating with leftmost matches of
pattern 1, and the pattern-1 output likewise for pattern 2, the
composed pass deletes exactly the matched segments — every occurrence,
left to right.  Second and third conjuncts: a segment is such a match
whenever it consists of a whitespace character, further optional
whitespace, and the clause literals — `schoolId:` with the literal
expression `context.schoolId,` for pattern 1, the bare shorthand
`schoolId,` for pattern 2 — separated by arbitrary whitespace runs, a
trailing whitespace run and a terminating newline. -/
theorem claim2_corrected :
    (∀ t mid out : List Char, SubSplit matchP1At t mid →
      SubSplit matchP2At mid out → fix_user_where_clause t = out)
    ∧ (∀ (c : Char) (ind w1 w2 w3 w4 wt s : List Char),
      isSpace c = true →
      (∀ d ∈ ind, isSpace d = true) → (∀ d ∈ w1, isSpace d = true) →
      (∀ d ∈ w2, isSpace d = true) → (∀ d ∈ w3, isSpace d = true) →
      (∀ d ∈ w4, isSpace d = true) → (∀ d ∈ wt, isSpace d = true) →
      noNlRun s = true →
      matchP1At (c :: (ind ++ (litSchoolIdColon ++ (w1 ++ (litContext ++
          (w2 ++ (litSlashes ++ (w3 ++ (litCritical ++ (w4 ++ (litFilter ++
          (wt ++ ('\n' :: s)))))))))))))
        = some s)
    ∧ (∀ (c : Char) (ind w2 w3 w4 wt s : List Char),
      isSpace c = true →
      (∀ d ∈ ind, isSpace d = true) →
      (∀ d ∈ w2, isSpace d = true) → (∀ d ∈ w3, isSpace d = true) →
      (∀ d ∈ w4, isSpace d = true) → (∀ d ∈ wt, isSpace d = true) →
      noNlRun s = true →
      matchP2At (c :: (ind ++ (litSchoolIdComma ++ (w2 ++ (litSlashes ++
          (w3 ++ (litCritical ++ (w4 ++ (litFilter ++ (wt ++ ('\n' :: s)))))))))))
        = some s) := by
  refine ⟨fun t mid out h1 h2 => ?_, ?_, ?_⟩
  · show subBy matchP2At (subBy matchP1At t) = out
    rw [subBy_of_split (fun _ _ h => matchP1At_lt h) h1]
    exact subBy_of_split (fun _ _ h => matchP2At_lt h) h2
  · intro c ind w1 w2 w3 w4 wt s hc hind hw1 hw2 hw3 hw4 hwt hs
    exact matchP1At_shape_ws hc hind hw1 hw2 hw3 hw4 hwt hs
  · intro c ind w2 w3 w4 wt s hc hind hw2 hw3 hw4 hwt hs
    exact matchP2At_shape_ws hc hind hw2 hw3 hw4 hwt hs

/-- C2, witness: a text holding a pattern-1 clause with irregular
interior whitespace and a bare-shorthand pattern-2 clause among
unrelated code; both occurrences are deleted and the separators are
kept. -/
theorem claim2_witness :
    fix_user_where_clause
        ("const w = 1;\n\tschoolId:   context.schoolId,\t//  CRITICAL:\tFilter by school  \nmid();\n    schoolId, //\tCRITICAL: Filter by school\nz()").data
      = ("const w = 1;mid();z()").data :=
  claim2_corrected.1 _ _ _
    (SubSplit.step (("const w = 1;").data)
      (("\n\tschoolId:   context.schoolId,\t//  CRITICAL:\tFilter by school  \n").data)
      (("mid();\n    schoolId, //\tCRITICAL: Filter by school\nz()").data)
      (("mid();\n    schoolId, //\tCRITICAL: Filter by school\nz()").data)
      (by decide) (by decide)
      (SubSplit.last
        (("mid();\n    schoolId, //\tCRITICAL: Filter by school\nz()").data)
        (by decide)))
    (SubSplit.step (("const w = 1;mid();").data)
      (("\n    schoolId, //\tCRITICAL: Filter by school\n").data)
      (("z()").data) (("z()").data)
      (by decide) (by decide)
      (SubSplit.last (("z()").data) (by decide)))

/-- C3, counterexample: the composed transformation is not idempotent.
On `exNonIdem` the first pass deletes the inner match, and the deletion
joins `scho` and `ol` into a fresh match that `re.sub` does not rescan;
the second application deletes it, changing the text again. -/
theorem claim3_counterexample :
    applyPasses (applyPasses exNonIdem) ≠ applyPasses exNonIdem := by
  decide

/-- C3, amended: a second application is a no-op exactly on outputs with
no residual match: whenever the first output contains no match of either
pattern, applying the three passes again changes nothing, and a second
`fix_file` run on a file holding that output reports a no-op and returns
`false`.  (By `claim3_counterexample` this residual-match proviso cannot
be dropped.) -/
theorem claim3_corrected (t : List Char) (fs : FS) (p : String)
    (h1 : hasMatchBy matchP1At (applyPasses t) = false)
    (h2 : hasMatchBy matchP2At (applyPasses t) = false) :
    applyPasses (applyPasses t) = applyPasses t ∧
      (fs p = .ok (applyPasses t) → fix_file fs p = (false, fs)) := by
  have hid : applyPasses (applyPasses t) = applyPasses t := by
    rw [applyPasses_eq_fix]
    exact fix_uwc_no_match h1 h2
  refine ⟨hid, fun hfs => ?_⟩
  simp [fix_file, fix_file_body, hfs, hid]

/-- C3, witness: the amended statement at a concrete input. -/
theorem claim3_witness :
    applyPasses (applyPasses exLineJoin) = applyPasses exLineJoin ∧
      fix_file (fun _ => ReadResult.ok (applyPasses exLineJoin)) "src/x.ts"
        = (false, fun _ => ReadResult.ok (applyPasses exLineJoin)) :=
  ⟨(claim3_corrected exLineJoin (fun _ => ReadResult.ok (applyPasses exLineJoin))
      "src/x.ts" (by decide) (by decide)).1,
   (claim3_corrected exLineJoin (fun _ => ReadResult.ok (applyPasses exLineJoin))
      "src/x.ts" (by decide) (by decide)).2 rfl⟩

/-- C4: for a file read successfully, `fix_file` writes back if and only
if the transformed content differs from the original, returning `true`
exactly in that case; and on pattern-free input the transformation is
the identity, no write occurs and `fix_file` returns `false`. -/
theorem claim4_write_iff_changed (fs : FS) (p : String) (content : List Char)
    (hfs : fs p = .ok content) :
    (applyPasses content ≠ content →
      fix_file fs p = (true, fsWrite fs p (applyPasses content))) ∧
    (applyPasses content = content → fix_file fs p = (false, fs)) ∧
    (hasMatchBy matchP1At content = false →
      hasMatchBy matchP2At content = false →
      applyPasses content = content ∧ fix_file fs p = (false, fs)) := by
  have hwrite : applyPasses content ≠ content →
      fix_file fs p = (true, fsWrite fs p (applyPasses content)) := by
    intro hne
    simp [fix_file, fix_file_body, hfs, hne]
  have hskip : applyPasses content = content → fix_file fs p = (false, fs) := by
    intro heq
    simp [fix_file, fix_file_body, hfs, heq]
  refine ⟨hwrite, hskip, fun h1 h2 => ?_⟩
  have heq : applyPasses content = content := by
    rw [applyPasses_eq_fix]
    exact fix_uwc_no_match h1 h2
  exact ⟨heq, hskip heq⟩

/-- C4, witness: a pattern-free file is left alone and reported as a
no-op. -/
theorem claim4_witness :
    applyPasses (("const ok = true;\n").data) = ("const ok = true;\n").data ∧
      fix_file (fun _ => ReadResult.ok (("const ok = true;\n").data)) "a.ts"
        = (false, fun _ => ReadResult.ok (("const ok = true;\n").data)) :=
  (claim4_write_iff_changed (fun _ => ReadResult.ok (("const ok = true;\n").data))
      "a.ts" (("const ok = true;\n").data) rfl).2.2 (by decide) (by decide)

/-- C5: both error kinds are caught inside `fix_file`: a raising body
makes `fix_file` return `false` with the file system untouched instead
of propagating; a missing file raises exactly `FileNotFound`, any other
failure the generic error; and the batch loop still produces one result
per listed file, so the run completes the whole list. -/
theorem claim5_errors_caught (fs : FS) (p : String) (e : PyErr)
    (ps : List String) :
    (fix_file_body fs p = .error e → fix_file fs p = (false, fs)) ∧
    (fs p = .absent → fix_file_body fs p = .error .fileNotFound) ∧
    (fs p = .err → fix_file_body fs p = .error .other) ∧
    (runAll fs ps).1.length = ps.length := by
  refine ⟨fun h => ?_, fun h => ?_, fun h => ?_, runAll_length fs ps⟩
  · simp [fix_file, h]
  · simp [fix_file_body, h]
  · simp [fix_file_body, h]

/-- C5, witness: a file system where every path is missing. -/
theorem claim5_witness :
    fix_file (fun _ => ReadResult.absent) "src/app/api/calendar/events/route.ts"
        = (false, fun _ => ReadResult.absent) ∧
      (runAll (fun _ => ReadResult.absent) files_to_fix).1.length
        = files_to_fix.length :=
  ⟨(claim5_errors_caught (fun _ => ReadResult.absent)
      "src/app/api/calendar/events/route.ts" PyErr.fileNotFound files_to_fix).1 rfl,
   (claim5_errors_caught (fun _ => ReadResult.absent)
      "src/app/api/calendar/events/route.ts" PyErr.fileNotFound files_to_fix).2.2.2⟩

/-- C6: the two detection passes return their input text unchanged for
every input; only the warning flag varies. -/
theorem claim6_detectors_identity (t : List Char) :
    (fix_teacher_references t).1 = t ∧ (fix_user_schools_references t).1 = t :=
  ⟨rfl, rfl⟩

/-- C7: `fix_teacher_references` warns if and only if the text contains
the substring `user.teacher` and does not contain the substring
`include:`. -/
theorem claim7_teacher_warning_iff (t : List Char) :
    (fix_teacher_references t).2 = true ↔
      (hasSub litUserTeacher t = true ∧ hasSub litInclude t = false) := by
  simp [fix_teacher_references, Bool.and_eq_true, Bool.not_eq_true']

/-- C8: `main` iterates the hardcoded twelve-element list in order and
the count it reports equals the number of files whose `fix_file` call
returned `true`, i.e. the number of files rewritten. -/
theorem claim8_main_count (fs : FS) :
    main fs = mainLoop fs files_to_fix ∧
    (main fs).1 = ((runAll fs files_to_fix).1.filter (fun b => b)).length ∧
    (runAll fs files_to_fix).1.length = files_to_fix.length ∧
    files_to_fix.length = 12 :=
  ⟨rfl, mainLoop_count files_to_fix fs, runAll_length fs files_to_fix, rfl⟩

/-- C9: the three passes composed in source order equal the substitution
pass alone, as functions on content: the two detectors are identities on
content. -/
theorem claim9_passes_equal_single (t : List Char) :
    (fix_user_schools_references
        (fix_teacher_references (fix_user_where_clause t)).1).1
      = fix_user_where_clause t := rfl

/-- C10: the output of `fix_user_where_clause` is a subsequence of the
input (both substitutions only delete characters), so it is never
longer than the input. -/
theorem claim10_output_sublist (t : List Char) :
    (fix_user_where_clause t).Sublist t ∧
      (fix_user_where_clause t).length ≤ t.length :=
  ⟨fix_uwc_sublist t, (fix_uwc_sublist t).length_le⟩

end FixTs
